import Mathlib

/-!
Verification of the planex pin resolver (`planex/cmd/pin.py`) and the Debian
rules translator (`planex/debianrules.py`) against their natural-language
specification.  Python strings are modelled as Lean `String` (a wrapper around
`List Char`), Python dicts as insertion-ordered association lists with
first-occurrence update, and the append-only output tree as a list of append
records.
-/

/- ===================== string utilities ===================== -/

/-- Boolean test that `p` is an initial segment of `s` (Python `startswith`,
and the building block for substring search). -/
def leadsWith : List Char → List Char → Bool
  | [], _ => true
  | _ :: _, [] => false
  | a :: as, b :: bs => a = b && leadsWith as bs

/-- Boolean substring test: `pat` occurs (as a contiguous run) somewhere in
`s`.  Mirrors Python's `pat in s` for a non-empty `pat`. -/
def occursB (pat s : List Char) : Bool :=
  (List.range s.length).any fun i => leadsWith pat (s.drop i)

/-- Python's `pat in s` substring containment on strings. -/
def containsSub (pat s : String) : Bool :=
  occursB pat.data s.data

/-- Python's `s.split(sep)` for a single-character separator `sep`:
splits on every occurrence, keeping empty pieces, and yields `[s]` when the
separator does not occur (in particular `[""]` on the empty string). -/
def splitOnChar (sep : Char) : List Char → List (List Char)
  | [] => [[]]
  | x :: xs =>
    match splitOnChar sep xs with
    | [] => if x = sep then [[], []] else [[x]]
    | h :: t => if x = sep then [] :: h :: t else (x :: h) :: t

/-- Python's `s.replace(pat, repl)` on character lists: replaces every
left-to-right non-overlapping occurrence of `pat` by `repl`.  (For the empty
pattern, which the translated code never uses, it returns `s` unchanged.) -/
def replaceAll (pat repl : List Char) : List Char → List Char
  | [] => []
  | ch :: rest =>
    if h : pat ≠ [] ∧ leadsWith pat (ch :: rest) = true then
      repl ++ replaceAll pat repl ((ch :: rest).drop pat.length)
    else
      ch :: replaceAll pat repl rest
termination_by s => s.length
decreasing_by
  · have hp : 0 < pat.length := List.length_pos.mpr h.1
    simp [List.length_drop]
    omega
  · simp

/-- Python's `s.replace(pat, repl)` on strings. -/
def strReplace (pat repl s : String) : String :=
  ⟨replaceAll pat.data repl.data s.data⟩

/- ===================== pin resolver: data model ===================== -/

/-- Modelled from the spec: the resource kinds of `planex.spec` (whose source
is not under `src/`); §3 of the spec: Blob, Archive, Patchqueue, Patch, Other,
where only Blob/Archive/Patchqueue kinds carry a commit identifier and only
the Archive kind carries a prefix. -/
inductive ResKind
  | blob
  | archive
  | patchqueue
  | patch
  | other
deriving DecidableEq, Repr

/-- Modelled from the spec: one resource descriptor of the Resource Model
(`planex.spec` is not under `src/`): a URL, a commit identifier (meaningful
only for the git-backed kinds Blob/Archive/Patchqueue), and an archive prefix
`pfx` (meaningful only for the Archive kind). -/
structure Resource where
  kind : ResKind
  url : String
  commitish : String
  pfx : String
deriving DecidableEq, Repr

/-- Modelled from the spec: kinds that carry a commit identifier
(`isinstance(source, (GitBlob, GitArchive, GitPatchqueue))` in `pin.py`). -/
def carriesCommit : ResKind → Bool
  | .blob => true
  | .archive => true
  | .patchqueue => true
  | .patch => false
  | .other => false

/-- Value of one top-level key of the pin descriptor: either the schema
version string or a resource object (an ordered list of string fields,
mirroring a JSON object in insertion order). -/
inductive PinVal
  | str (s : String)
  | obj (fields : List (String × String))
deriving DecidableEq, Repr

/-- Python dict assignment `m[k] = v` on an insertion-ordered association
list: overwrite the first binding of `k` in place, or append a new binding. -/
def setKey {α : Type} : List (String × α) → String → α → List (String × α)
  | [], k, v => [(k, v)]
  | (k', v') :: rest, k, v =>
    if k' = k then (k, v) :: rest else (k', v') :: setKey rest k v

/-- Python dict lookup `m[k]` (as an option): value of the first binding. -/
def lookupKey {α : Type} : List (String × α) → String → Option α
  | [], _ => none
  | (k', v') :: rest, k => if k' = k then some v' else lookupKey rest k

/- ===================== pin resolver: operations ===================== -/

/-- Translation of `repo_or_path` (`pin.py` lines 43-57): an argument starting
with `ssh://` is split on `#` into `(URL, commitish)`; more than one `#` is a
value error (modelled as `Except.error`); anything else is `(arg, none)`. -/
def repo_or_path (arg : String) : Except String (String × Option String) :=
  if leadsWith "ssh://".data arg.data = true then
    match splitOnChar '#' arg.data with
    | [_] => .ok (arg, none)
    | [u, c] => .ok (⟨u⟩, some ⟨c⟩)
    | _ => .error ("Expected URL or ssh://URL#commitish but got " ++ arg)
  else
    .ok (arg, none)

/-- Fields `{"commitish": c}` added to an override entry when a commitish was
parsed (`pin.py` lines 71-72 and 91-92). -/
def optCommit : Option String → List (String × String)
  | some c => [("commitish", c)]
  | none => []

/-- Resource object built for an override (`Source0`, `PatchQueue0`,
`Archive0`): a URL plus the correctly spelled `commitish` when present. -/
def overrideEntry (url : String) (cm : Option String) : PinVal :=
  .obj (("URL", url) :: optCommit cm)

/-- Resource object built for an enumerated (non-override) resource
(`pin.py` lines 82-86): `URL`, then the misspelled `commititsh` for git-backed
kinds, then `prefix` for the Archive kind. -/
def entryOf (src : Resource) : List (String × String) :=
  [("URL", src.url)]
    ++ (if carriesCommit src.kind = true then [("commititsh", src.commitish)] else [])
    ++ (if src.kind = ResKind.archive then [("prefix", src.pfx)] else [])

/-- Filter of the enumeration loop (`pin.py` lines 77-80): with a patch-queue
override active, names containing `PatchQueue` are skipped; names containing
`Patch` but not `PatchQueue` are always skipped. -/
def survivesFilter (pq : Bool) (name : String) : Bool :=
  !(pq && containsSub "PatchQueue" name)
    && !(containsSub "Patch" name && !containsSub "PatchQueue" name)

/-- Predicate of the unconditional skip: the name identifies an individual
patch that is not a patch-queue. -/
def isIndivPatch (name : String) : Bool :=
  containsSub "Patch" name && !containsSub "PatchQueue" name

/-- Enumeration loop of `get_pin_content` (`pin.py` lines 75-86): fold over
the resources in declared order, adding an entry for each survivor. -/
def pinFold (pq : Bool) (pf : List (String × PinVal)) :
    List (String × Resource) → List (String × PinVal)
  | [] => pf
  | (name, src) :: rest =>
    if survivesFilter pq name = true then
      pinFold pq (setKey pf name (.obj (entryOf src))) rest
    else
      pinFold pq pf rest

/-- Translation of `get_pin_content` (`pin.py` lines 62-100).  `source` and
`patchqueue` are the raw override argument strings (or `none`); `resources`
is the ordered `spec.resources_dict()`.  A parse failure of an override
argument propagates as an error. -/
def get_pin_content (source patchqueue : Option String)
    (resources : List (String × Resource)) : Except String (List (String × PinVal)) :=
  let pf0 : List (String × PinVal) := [("SchemaVersion", PinVal.str "3")]
  match source with
  | some s =>
    match repo_or_path s with
    | .error e => .error e
    | .ok (url, cm) => .ok (setKey pf0 "Source0" (overrideEntry url cm))
  | none =>
    let pf := pinFold patchqueue.isSome pf0 resources
    match patchqueue with
    | some q =>
      match repo_or_path q with
      | .error e => .error e
      | .ok (url, cm) =>
        .ok (setKey (setKey pf "PatchQueue0" (overrideEntry url cm))
              "Archive0" (overrideEntry url cm))
    | none => .ok pf

/-- Python's character count `s.count(c)` restricted to a single character. -/
def countChar (c : Char) : List Char → Nat
  | [] => 0
  | x :: xs => (if x = c then 1 else 0) + countChar c xs

/- ===================== association-list lemmas ===================== -/

theorem lookupKey_setKey_self {α : Type} (m : List (String × α)) (k : String) (v : α) :
    lookupKey (setKey m k v) k = some v := by
  induction m with
  | nil => simp [setKey, lookupKey]
  | cons p rest ih =>
    obtain ⟨k', v'⟩ := p
    by_cases h : k' = k
    · subst h
      simp [setKey, lookupKey]
    · simp [setKey, lookupKey, h, ih]

theorem lookupKey_setKey_ne {α : Type} (m : List (String × α)) (k k' : String) (v : α)
    (h : k ≠ k') : lookupKey (setKey m k' v) k = lookupKey m k := by
  induction m with
  | nil => simp [setKey, lookupKey, Ne.symm h]
  | cons p rest ih =>
    obtain ⟨k'', v''⟩ := p
    by_cases h2 : k'' = k'
    · subst h2
      simp [setKey, lookupKey, Ne.symm h]
    · by_cases h3 : k'' = k
      · subst h3
        simp [setKey, lookupKey, h2]
      · simp [setKey, lookupKey, h2, h3, ih]

theorem splitOnChar_length (sep : Char) (s : List Char) :
    (splitOnChar sep s).length = countChar sep s + 1 := by
  induction s with
  | nil => rfl
  | cons x xs ih =>
    simp only [splitOnChar, countChar]
    cases hr : splitOnChar sep xs with
    | nil =>
      rw [hr] at ih
      simp at ih
    | cons h t =>
      rw [hr] at ih
      by_cases hx : x = sep
      · simp only [List.length_cons] at ih
        simp [hx, List.length_cons]
        omega
      · simp only [List.length_cons] at ih
        simp [hx, List.length_cons]
        omega

theorem repo_or_path_error_iff (arg : String) :
    (∃ e, repo_or_path arg = .error e) ↔
      (leadsWith "ssh://".data arg.data = true ∧ 2 ≤ countChar '#' arg.data) := by
  unfold repo_or_path
  by_cases hssh : leadsWith "ssh://".data arg.data = true
  · rw [if_pos hssh]
    have hlen := splitOnChar_length '#' arg.data
    cases hsp : splitOnChar '#' arg.data with
    | nil =>
      rw [hsp] at hlen
      simp at hlen
    | cons a t =>
      rw [hsp] at hlen
      cases t with
      | nil =>
        simp only [List.length_cons, List.length_nil] at hlen
        simp [hssh]
        omega
      | cons b t2 =>
        cases t2 with
        | nil =>
          simp only [List.length_cons, List.length_nil] at hlen
          simp [hssh]
          omega
        | cons d t3 =>
          simp only [List.length_cons] at hlen
          simp [hssh]
          omega
  · rw [if_neg hssh]
    simp [hssh]

/- ===================== claim theorems: pin overrides ===================== -/

/-- C1: for every Resource Model and every SourceOverride request, the pin
descriptor produced by the pin resolver has exactly the two top-level keys
`SchemaVersion = "3"` and `Source0` holding the override URL plus the parsed
commitish when one was supplied; no resource of the model appears. -/
theorem pin_source_override_only_source0
    (resources : List (String × Resource)) (src url : String) (cm : Option String)
    (h : repo_or_path src = .ok (url, cm)) :
    get_pin_content (some src) none resources
      = .ok [("SchemaVersion", PinVal.str "3"),
             ("Source0", PinVal.obj (("URL", url) :: optCommit cm))] := by
  simp [get_pin_content, h, setKey, overrideEntry]

/-- C1 witness: a concrete model with two resources and a concrete ssh
override produce exactly the two keys. -/
theorem pin_source_override_only_source0_witness :
    get_pin_content (some "ssh://h#dead") none
        [("Source0", ⟨ResKind.blob, "git://x", "abc", ""⟩),
         ("Patch9", ⟨ResKind.patch, "p.patch", "", ""⟩)]
      = .ok [("SchemaVersion", PinVal.str "3"),
             ("Source0", PinVal.obj [("URL", "ssh://h"), ("commitish", "dead")])] :=
  pin_source_override_only_source0 _ "ssh://h#dead" "ssh://h" (some "dead") rfl

/-- C2: for every Resource Model resolved with a PatchQueueOverride, the pin
descriptor contains both `PatchQueue0` and `Archive0`, and the two entries are
the same object (same URL, same commitish when supplied). -/
theorem pin_patchqueue_override_archive0_duplicate
    (resources : List (String × Resource)) (pq url : String) (cm : Option String)
    (m : List (String × PinVal))
    (h : repo_or_path pq = .ok (url, cm))
    (hok : get_pin_content none (some pq) resources = .ok m) :
    lookupKey m "PatchQueue0" = some (overrideEntry url cm)
      ∧ lookupKey m "Archive0" = some (overrideEntry url cm) := by
  simp only [get_pin_content, h, Option.isSome_some] at hok
  cases hok
  constructor
  · rw [lookupKey_setKey_ne _ _ _ _ (by decide)]
    exact lookupKey_setKey_self _ _ _
  · exact lookupKey_setKey_self _ _ _

/-- C2 witness: with one concrete declared resource and the override
`ssh://h#c`, both keys are present and identical. -/
theorem pin_patchqueue_override_archive0_duplicate_witness :
    lookupKey [("SchemaVersion", PinVal.str "3"),
               ("Source0", PinVal.obj [("URL", "git://x"), ("commititsh", "abc")]),
               ("PatchQueue0", PinVal.obj [("URL", "ssh://h"), ("commitish", "c")]),
               ("Archive0", PinVal.obj [("URL", "ssh://h"), ("commitish", "c")])]
        "PatchQueue0" = some (overrideEntry "ssh://h" (some "c"))
    ∧ lookupKey [("SchemaVersion", PinVal.str "3"),
                 ("Source0", PinVal.obj [("URL", "git://x"), ("commititsh", "abc")]),
                 ("PatchQueue0", PinVal.obj [("URL", "ssh://h"), ("commitish", "c")]),
                 ("Archive0", PinVal.obj [("URL", "ssh://h"), ("commitish", "c")])]
        "Archive0" = some (overrideEntry "ssh://h" (some "c")) :=
  pin_patchqueue_override_archive0_duplicate
    [("Source0", ⟨ResKind.blob, "git://x", "abc", ""⟩)] "ssh://h#c" "ssh://h" (some "c")
    _ rfl rfl

/-- C5: the override-argument parser fails with a value error exactly on the
arguments that do not have the expected URL-then-optional-commit shape,
namely the ssh-prefixed ones holding at least two `#` characters; and the
scenario `SourceOverride(url="ssh://h#deadbeef")` yields a pin whose `Source0`
is the URL `ssh://h` with commitish `deadbeef`. -/
theorem pin_malformed_override_error_and_scenario :
    (∀ arg : String,
      (∃ e, repo_or_path arg = .error e) ↔
        (leadsWith "ssh://".data arg.data = true ∧ 2 ≤ countChar '#' arg.data))
    ∧ ∀ resources : List (String × Resource),
        get_pin_content (some "ssh://h#deadbeef") none resources
          = .ok [("SchemaVersion", PinVal.str "3"),
                 ("Source0", PinVal.obj [("URL", "ssh://h"), ("commitish", "deadbeef")])] := by
  refine ⟨repo_or_path_error_iff, fun resources => ?_⟩
  exact pin_source_override_only_source0 resources "ssh://h#deadbeef" "ssh://h"
    (some "deadbeef") rfl

/-- C9: the parser returns the whole argument with no commitish for every
non-ssh-prefixed string, even one containing `#`; a commitish can only come
from an ssh-prefixed argument; and the value error is reachable only for
ssh-prefixed arguments with at least two `#` characters. -/
theorem repo_or_path_non_ssh_passthrough :
    ∀ arg : String,
      (leadsWith "ssh://".data arg.data = false → repo_or_path arg = .ok (arg, none))
      ∧ (∀ u c, repo_or_path arg = .ok (u, some c) →
          leadsWith "ssh://".data arg.data = true)
      ∧ (∀ e, repo_or_path arg = .error e →
          leadsWith "ssh://".data arg.data = true ∧ 2 ≤ countChar '#' arg.data) := by
  intro arg
  refine ⟨fun hf => ?_, fun u c hok => ?_, fun e herr => ?_⟩
  · simp [repo_or_path, hf]
  · by_cases hssh : leadsWith "ssh://".data arg.data = true
    · exact hssh
    · rw [repo_or_path, if_neg hssh] at hok
      simp at hok
  · exact (repo_or_path_error_iff arg).mp ⟨e, herr⟩

/-- C9 witness: concrete instances of all three conjuncts: a non-ssh argument
with two `#` passes through unchanged; a commitish-carrying parse comes from
an ssh argument; a parse error comes from an ssh argument with two `#`. -/
theorem repo_or_path_non_ssh_passthrough_witness :
    repo_or_path "http://h#a#b" = .ok ("http://h#a#b", none)
    ∧ leadsWith "ssh://".data "ssh://h#c".data = true
    ∧ (leadsWith "ssh://".data "ssh://a#b#c".data = true
        ∧ 2 ≤ countChar '#' "ssh://a#b#c".data) :=
  ⟨(repo_or_path_non_ssh_passthrough "http://h#a#b").1 (by decide),
   (repo_or_path_non_ssh_passthrough "ssh://h#c").2.1 "ssh://h" "c" rfl,
   (repo_or_path_non_ssh_passthrough "ssh://a#b#c").2.2
     "Expected URL or ssh://URL#commitish but got ssh://a#b#c" rfl⟩

/- ===================== enumeration-loop lemmas ===================== -/

theorem pinFold_lookup_notin (pq : Bool) (pf : List (String × PinVal))
    (rs : List (String × Resource)) (name : String)
    (h : ∀ p ∈ rs, Prod.fst p ≠ name) :
    lookupKey (pinFold pq pf rs) name = lookupKey pf name := by
  induction rs generalizing pf with
  | nil => rfl
  | cons p rest ih =>
    obtain ⟨n, src⟩ := p
    have hn : n ≠ name := h (n, src) (List.mem_cons_self _ _)
    have htl : ∀ p ∈ rest, Prod.fst p ≠ name := fun p hp => h p (List.mem_cons_of_mem _ hp)
    by_cases hs : survivesFilter pq n = true
    · simp only [pinFold, if_pos hs]
      rw [ih _ htl]
      exact lookupKey_setKey_ne _ _ _ _ (Ne.symm hn)
    · simp only [pinFold, if_neg hs]
      exact ih _ htl

theorem pinFold_lookup_dropped (pq : Bool) (pf : List (String × PinVal))
    (rs : List (String × Resource)) (name : String)
    (h : survivesFilter pq name = false) :
    lookupKey (pinFold pq pf rs) name = lookupKey pf name := by
  induction rs generalizing pf with
  | nil => rfl
  | cons p rest ih =>
    obtain ⟨n, src⟩ := p
    by_cases hs : survivesFilter pq n = true
    · have hn : name ≠ n := by
        intro he
        rw [he, hs] at h
        cases h
      simp only [pinFold, if_pos hs]
      rw [ih _]
      exact lookupKey_setKey_ne _ _ _ _ hn
    · simp only [pinFold, if_neg hs]
      exact ih _

theorem pinFold_lookup_mem (pq : Bool) (rs : List (String × Resource))
    (name : String) (src : Resource) :
    ∀ pf, (name, src) ∈ rs → (rs.map Prod.fst).Nodup →
      survivesFilter pq name = true →
      lookupKey (pinFold pq pf rs) name = some (PinVal.obj (entryOf src)) := by
  induction rs with
  | nil =>
    intro pf hmem _ _
    cases hmem
  | cons p rest ih =>
    intro pf hmem hnd hs
    obtain ⟨n, s'⟩ := p
    simp only [List.map_cons, List.nodup_cons] at hnd
    rcases List.mem_cons.mp hmem with heq | htail
    · cases heq
      simp only [pinFold, if_pos hs]
      rw [pinFold_lookup_notin]
      · exact lookupKey_setKey_self _ _ _
      · intro q hq he
        exact hnd.1 (he ▸ List.mem_map_of_mem Prod.fst hq)
    · by_cases hs' : survivesFilter pq n = true
      · simp only [pinFold, if_pos hs']
        exact ih _ htail hnd.2 hs
      · simp only [pinFold, if_neg hs']
        exact ih _ htail hnd.2 hs

theorem survives_of_indiv (pq : Bool) (name : String) (h : isIndivPatch name = true) :
    survivesFilter pq name = false := by
  unfold isIndivPatch at h
  unfold survivesFilter
  rw [h]
  simp

theorem survives_of_not_indiv_none (name : String) (h : isIndivPatch name = false) :
    survivesFilter false name = true := by
  unfold isIndivPatch at h
  unfold survivesFilter
  rw [h]
  simp

theorem survives_pq_true (name : String) (h1 : containsSub "PatchQueue" name = false)
    (h2 : isIndivPatch name = false) : survivesFilter true name = true := by
  unfold isIndivPatch at h2
  unfold survivesFilter
  rw [h1] at h2 ⊢
  simp at h2 ⊢
  exact h2

theorem ne_by_contains (p name lit : String) (h1 : containsSub p name = true)
    (h2 : containsSub p lit = false) : name ≠ lit := by
  intro he
  rw [he, h2] at h1
  cases h1

theorem ne_by_contains_rev (p name lit : String) (h1 : containsSub p name = false)
    (h2 : containsSub p lit = true) : name ≠ lit := by
  intro he
  rw [he, h2] at h1
  cases h1

/- ===================== claim theorems: pin enumeration ===================== -/

/-- C3 counterexample: under a PatchQueueOverride, a declared resource named
`Archive0` (which contains neither the `Patch` substring nor the `PatchQueue`
marker) does not appear with its own URL: the override step overwrites its
entry, so the claim that every non-patch resource appears with its URL fails
at this input. -/
theorem pin_archive0_overwritten_counterexample :
    get_pin_content none (some "ssh://q#c")
        [("Archive0", ⟨ResKind.archive, "git://orig", "abc", "p"⟩)]
      = .ok [("SchemaVersion", PinVal.str "3"),
             ("Archive0", PinVal.obj [("URL", "ssh://q"), ("commitish", "c")]),
             ("PatchQueue0", PinVal.obj [("URL", "ssh://q"), ("commitish", "c")])]
    ∧ isIndivPatch "Archive0" = false
    ∧ containsSub "PatchQueue" "Archive0" = false
    ∧ PinVal.obj [("URL", "ssh://q"), ("commitish", "c")]
        ≠ PinVal.obj (entryOf ⟨ResKind.archive, "git://orig", "abc", "p"⟩) :=
  ⟨rfl, by decide, by decide, by decide⟩

/-- C3 (amended): with override None or a PatchQueueOverride, a resource whose
name contains `Patch` but not `PatchQueue` never appears in the descriptor; a
name containing the `PatchQueue` marker is never dropped by that
individual-patch filter (with no override it always appears); and every other
resource appears with its URL, commitish and prefix — except that, under a
PatchQueueOverride, a resource named `Archive0` has its entry overwritten by
the override's entry. -/
theorem pin_enumeration_patch_filter
    (resources : List (String × Resource)) (pq : Option String)
    (m : List (String × PinVal))
    (hnd : (resources.map Prod.fst).Nodup)
    (hok : get_pin_content none pq resources = .ok m)
    (name : String) (src : Resource) (hmem : (name, src) ∈ resources) :
    (isIndivPatch name = true → lookupKey m name = none)
    ∧ (pq = none → isIndivPatch name = false →
        lookupKey m name = some (PinVal.obj (entryOf src)))
    ∧ (∀ q, pq = some q → containsSub "PatchQueue" name = false →
        isIndivPatch name = false → name ≠ "Archive0" →
        lookupKey m name = some (PinVal.obj (entryOf src))) := by
  cases pq with
  | none =>
    simp only [get_pin_content, Option.isSome_none] at hok
    cases hok
    refine ⟨fun hind => ?_, fun _ hnind => ?_, fun q hq => Option.noConfusion hq⟩
    · have hind' := hind
      simp [isIndivPatch] at hind'
      have hnS : name ≠ "SchemaVersion" :=
        ne_by_contains "Patch" name "SchemaVersion" hind'.1 (by decide)
      rw [pinFold_lookup_dropped _ _ _ _ (survives_of_indiv false name hind)]
      simp [lookupKey, Ne.symm hnS]
    · exact pinFold_lookup_mem false resources name src _ hmem hnd
        (survives_of_not_indiv_none name hnind)
  | some q =>
    cases hq2 : repo_or_path q with
    | error e =>
      simp only [get_pin_content, hq2] at hok
      exact Except.noConfusion hok
    | ok p =>
      obtain ⟨url, cm⟩ := p
      simp only [get_pin_content, hq2, Option.isSome_some] at hok
      cases hok
      refine ⟨fun hind => ?_, fun hpq _ => Option.noConfusion hpq,
        fun q' hq' hnoPQ hnind hnA => ?_⟩
      · have hind' := hind
        simp [isIndivPatch] at hind'
        have hnS : name ≠ "SchemaVersion" :=
          ne_by_contains "Patch" name "SchemaVersion" hind'.1 (by decide)
        have hnPQ0 : name ≠ "PatchQueue0" :=
          ne_by_contains_rev "PatchQueue" name "PatchQueue0" hind'.2 (by decide)
        have hnA0 : name ≠ "Archive0" :=
          ne_by_contains "Patch" name "Archive0" hind'.1 (by decide)
        rw [lookupKey_setKey_ne _ _ _ _ hnA0, lookupKey_setKey_ne _ _ _ _ hnPQ0,
          pinFold_lookup_dropped _ _ _ _ (survives_of_indiv true name hind)]
        simp [lookupKey, Ne.symm hnS]
      · have hnPQ0 : name ≠ "PatchQueue0" :=
          ne_by_contains_rev "PatchQueue" name "PatchQueue0" hnoPQ (by decide)
        rw [lookupKey_setKey_ne _ _ _ _ hnA, lookupKey_setKey_ne _ _ _ _ hnPQ0]
        exact pinFold_lookup_mem true resources name src _ hmem hnd
          (survives_pq_true name hnoPQ hnind)

/-- C3 witness: on a concrete model, `Patch1` is filtered out, `Source0` and
the patch-queue-named resource appear with their own data when no override is
given, and `Source0` still appears with its own URL under a
PatchQueueOverride. -/
theorem pin_enumeration_patch_filter_witness :
    lookupKey [("SchemaVersion", PinVal.str "3"),
               ("Source0", PinVal.obj [("URL", "git://x"), ("commititsh", "abc")]),
               ("PatchQueue0", PinVal.obj [("URL", "git://pq"), ("commititsh", "def")])]
        "Patch1" = none
    ∧ lookupKey [("SchemaVersion", PinVal.str "3"),
                 ("Source0", PinVal.obj [("URL", "git://x"), ("commititsh", "abc")]),
                 ("PatchQueue0", PinVal.obj [("URL", "git://pq"), ("commititsh", "def")])]
        "Source0"
        = some (PinVal.obj (entryOf ⟨ResKind.blob, "git://x", "abc", ""⟩))
    ∧ lookupKey [("SchemaVersion", PinVal.str "3"),
                 ("Source0", PinVal.obj [("URL", "git://x"), ("commititsh", "abc")]),
                 ("PatchQueue0", PinVal.obj [("URL", "git://pq"), ("commititsh", "def")])]
        "PatchQueue0"
        = some (PinVal.obj (entryOf ⟨ResKind.patchqueue, "git://pq", "def", ""⟩)) :=
  ⟨(pin_enumeration_patch_filter
      [("Source0", ⟨ResKind.blob, "git://x", "abc", ""⟩),
       ("Patch1", ⟨ResKind.patch, "p.patch", "", ""⟩),
       ("PatchQueue0", ⟨ResKind.patchqueue, "git://pq", "def", ""⟩)]
      none _ (by simp) rfl "Patch1" ⟨ResKind.patch, "p.patch", "", ""⟩
      (by simp)).1 (by decide),
   (pin_enumeration_patch_filter
      [("Source0", ⟨ResKind.blob, "git://x", "abc", ""⟩),
       ("Patch1", ⟨ResKind.patch, "p.patch", "", ""⟩),
       ("PatchQueue0", ⟨ResKind.patchqueue, "git://pq", "def", ""⟩)]
      none _ (by simp) rfl "Source0" ⟨ResKind.blob, "git://x", "abc", ""⟩
      (by simp)).2.1 rfl (by decide),
   (pin_enumeration_patch_filter
      [("Source0", ⟨ResKind.blob, "git://x", "abc", ""⟩),
       ("Patch1", ⟨ResKind.patch, "p.patch", "", ""⟩),
       ("PatchQueue0", ⟨ResKind.patchqueue, "git://pq", "def", ""⟩)]
      none _ (by simp) rfl "PatchQueue0" ⟨ResKind.patchqueue, "git://pq", "def", ""⟩
      (by simp)).2.1 rfl (by decide)⟩

theorem survives_of_pq_marker (name : String)
    (h : containsSub "PatchQueue" name = true) :
    survivesFilter true name = false := by
  unfold survivesFilter
  rw [h]
  simp

theorem entryOf_fields (src : Resource) :
    (∀ c, ("commitish", c) ∉ entryOf src)
    ∧ (carriesCommit src.kind = true → ("commititsh", src.commitish) ∈ entryOf src) := by
  constructor
  · intro c hc
    cases hk : src.kind <;> simp [entryOf, carriesCommit, hk] at hc
  · intro hcarry
    simp [entryOf, hcarry]

/-- C4: in every Pin Descriptor, a commit identifier on an entry enumerated
from the Resource Model — in an override-free run or alongside a
PatchQueueOverride, where only the keys `PatchQueue0` and `Archive0` are
override-derived — is stored under the misspelled key `commititsh` (and the
correctly spelled key never occurs there), while a commit identifier on an
override-derived entry (`Source0`, `PatchQueue0`, `Archive0`) is stored under
the correctly spelled key `commitish`. -/
theorem pin_commitish_spelling :
    (∀ (resources : List (String × Resource)) (name : String) (src : Resource)
        (m : List (String × PinVal)) (fields : List (String × String))
        (pq : Option String),
      (resources.map Prod.fst).Nodup →
      get_pin_content none pq resources = .ok m →
      (name, src) ∈ resources →
      (pq.isSome = true → name ≠ "PatchQueue0" ∧ name ≠ "Archive0") →
      lookupKey m name = some (PinVal.obj fields) →
      (∀ c, ("commitish", c) ∉ fields)
        ∧ (carriesCommit src.kind = true → ("commititsh", src.commitish) ∈ fields))
    ∧ (∀ (ov url c : String) (resources : List (String × Resource))
        (m : List (String × PinVal)),
      repo_or_path ov = .ok (url, some c) →
      get_pin_content (some ov) none resources = .ok m →
      lookupKey m "Source0" = some (PinVal.obj [("URL", url), ("commitish", c)]))
    ∧ (∀ (ov url c : String) (resources : List (String × Resource))
        (m : List (String × PinVal)),
      repo_or_path ov = .ok (url, some c) →
      get_pin_content none (some ov) resources = .ok m →
      lookupKey m "PatchQueue0" = some (PinVal.obj [("URL", url), ("commitish", c)])
        ∧ lookupKey m "Archive0" = some (PinVal.obj [("URL", url), ("commitish", c)])) := by
  refine ⟨?_, ?_, ?_⟩
  · intro resources name src m fields pq hnd hok hmem hkeys hlook
    cases pq with
    | none =>
      simp only [get_pin_content, Option.isSome_none] at hok
      cases hok
      by_cases hind : isIndivPatch name = true
      · exfalso
        have hind' := hind
        simp [isIndivPatch] at hind'
        have hnS : name ≠ "SchemaVersion" :=
          ne_by_contains "Patch" name "SchemaVersion" hind'.1 (by decide)
        rw [pinFold_lookup_dropped _ _ _ _ (survives_of_indiv false name hind)] at hlook
        simp [lookupKey, Ne.symm hnS] at hlook
      · have hnind : isIndivPatch name = false := by
          revert hind
          cases isIndivPatch name <;> simp
        rw [pinFold_lookup_mem false resources name src _ hmem hnd
          (survives_of_not_indiv_none name hnind)] at hlook
        have hf : fields = entryOf src := by
          injection hlook with h1
          injection h1 with h2
          exact h2.symm
        subst hf
        exact entryOf_fields src
    | some q =>
      cases hq2 : repo_or_path q with
      | error e =>
        simp only [get_pin_content, hq2] at hok
        exact Except.noConfusion hok
      | ok p =>
        obtain ⟨url, cm⟩ := p
        simp only [get_pin_content, hq2, Option.isSome_some] at hok
        cases hok
        obtain ⟨hnPQ0, hnA0⟩ := hkeys rfl
        rw [lookupKey_setKey_ne _ _ _ _ hnA0, lookupKey_setKey_ne _ _ _ _ hnPQ0] at hlook
        by_cases hpqm : containsSub "PatchQueue" name = true
        · exfalso
          have hnS : name ≠ "SchemaVersion" :=
            ne_by_contains "PatchQueue" name "SchemaVersion" hpqm (by decide)
          rw [pinFold_lookup_dropped _ _ _ _ (survives_of_pq_marker name hpqm)] at hlook
          simp [lookupKey, Ne.symm hnS] at hlook
        · have hpqf : containsSub "PatchQueue" name = false := by
            revert hpqm
            cases containsSub "PatchQueue" name <;> simp
          by_cases hind : isIndivPatch name = true
          · exfalso
            have hind' := hind
            simp [isIndivPatch] at hind'
            have hnS : name ≠ "SchemaVersion" :=
              ne_by_contains "Patch" name "SchemaVersion" hind'.1 (by decide)
            rw [pinFold_lookup_dropped _ _ _ _ (survives_of_indiv true name hind)] at hlook
            simp [lookupKey, Ne.symm hnS] at hlook
          · have hnind : isIndivPatch name = false := by
              revert hind
              cases isIndivPatch name <;> simp
            rw [pinFold_lookup_mem true resources name src _ hmem hnd
              (survives_pq_true name hpqf hnind)] at hlook
            have hf : fields = entryOf src := by
              injection hlook with h1
              injection h1 with h2
              exact h2.symm
            subst hf
            exact entryOf_fields src
  · intro ov url c resources m hrp hok
    simp only [get_pin_content, hrp] at hok
    cases hok
    rfl
  · intro ov url c resources m hrp hok
    simp only [get_pin_content, hrp, Option.isSome_some] at hok
    cases hok
    constructor
    · rw [lookupKey_setKey_ne _ _ _ _ (by decide)]
      exact lookupKey_setKey_self _ _ _
    · exact lookupKey_setKey_self _ _ _

/-- C4 witness: concrete instances of all three conjuncts: inside a
PatchQueueOverride descriptor, the enumerated blob entry `Source0` gets
`commititsh` and never `commitish` while `PatchQueue0` and `Archive0` get
`commitish`; and `Source0` from a concrete SourceOverride gets `commitish`. -/
theorem pin_commitish_spelling_witness :
    (("commitish", "abc") ∉ [("URL", "git://x"), ("commititsh", "abc")]
      ∧ ("commititsh", "abc") ∈ [("URL", "git://x"), ("commititsh", "abc")])
    ∧ lookupKey [("SchemaVersion", PinVal.str "3"),
                 ("Source0", PinVal.obj [("URL", "ssh://h"), ("commitish", "d")])]
        "Source0" = some (PinVal.obj [("URL", "ssh://h"), ("commitish", "d")])
    ∧ (lookupKey [("SchemaVersion", PinVal.str "3"),
                  ("Source0", PinVal.obj [("URL", "git://x"), ("commititsh", "abc")]),
                  ("PatchQueue0", PinVal.obj [("URL", "ssh://h"), ("commitish", "d")]),
                  ("Archive0", PinVal.obj [("URL", "ssh://h"), ("commitish", "d")])]
        "PatchQueue0" = some (PinVal.obj [("URL", "ssh://h"), ("commitish", "d")])
      ∧ lookupKey [("SchemaVersion", PinVal.str "3"),
                   ("Source0", PinVal.obj [("URL", "git://x"), ("commititsh", "abc")]),
                   ("PatchQueue0", PinVal.obj [("URL", "ssh://h"), ("commitish", "d")]),
                   ("Archive0", PinVal.obj [("URL", "ssh://h"), ("commitish", "d")])]
          "Archive0" = some (PinVal.obj [("URL", "ssh://h"), ("commitish", "d")])) :=
  ⟨⟨(pin_commitish_spelling.1 [("Source0", ⟨ResKind.blob, "git://x", "abc", ""⟩)]
      "Source0" ⟨ResKind.blob, "git://x", "abc", ""⟩
      [("SchemaVersion", PinVal.str "3"),
       ("Source0", PinVal.obj [("URL", "git://x"), ("commititsh", "abc")]),
       ("PatchQueue0", PinVal.obj [("URL", "ssh://h"), ("commitish", "d")]),
       ("Archive0", PinVal.obj [("URL", "ssh://h"), ("commitish", "d")])]
      [("URL", "git://x"), ("commititsh", "abc")]
      (some "ssh://h#d") (by simp) rfl (by simp) (by decide) rfl).1 "abc",
    (pin_commitish_spelling.1 [("Source0", ⟨ResKind.blob, "git://x", "abc", ""⟩)]
      "Source0" ⟨ResKind.blob, "git://x", "abc", ""⟩
      [("SchemaVersion", PinVal.str "3"),
       ("Source0", PinVal.obj [("URL", "git://x"), ("commititsh", "abc")]),
       ("PatchQueue0", PinVal.obj [("URL", "ssh://h"), ("commitish", "d")]),
       ("Archive0", PinVal.obj [("URL", "ssh://h"), ("commitish", "d")])]
      [("URL", "git://x"), ("commititsh", "abc")]
      (some "ssh://h#d") (by simp) rfl (by simp) (by decide) rfl).2 rfl⟩,
   pin_commitish_spelling.2.1 "ssh://h#d" "ssh://h" "d"
     [("Source0", ⟨ResKind.blob, "git://x", "abc", ""⟩)] _ rfl rfl,
   pin_commitish_spelling.2.2 "ssh://h#d" "ssh://h" "d"
     [("Source0", ⟨ResKind.blob, "git://x", "abc", ""⟩)] _ rfl rfl⟩

/- ===================== rules translator: data model ===================== -/

/-- Modelled from the spec: the recipe text blocks of the spec object used by
`debianrules.py` (`planex.spec` is not under `src/`): the build, install and
clean shell recipes (the test recipe is never consulted). -/
structure DebSpec where
  build : String
  install : String
  clean : String
deriving DecidableEq, Repr

/-- Modelled from the spec: the Output Artifact Set (`planex.tree.Tree` is not
under `src/`, so its Lean name is `OutTree`): an append-only list of records `(path, content, permissions)`,
where `none` permissions means the default non-executable file mode.  Appends
to the same path concatenate their contents in call order with no implicit
separator. -/
abbrev OutTree : Type := List (String × String × Option Nat)

/-- Content fragments appended to path `p`, in call order. -/
def pathFragments (tree : OutTree) (p : String) : List String :=
  (tree.filter fun e => e.1 == p).map fun e => e.2.1

/-- Concatenation of a list of strings with no separator. -/
def catList : List String → String
  | [] => ""
  | [s] => s
  | s :: rest => s ++ catList rest

/-- Accumulated content of path `p` in the output tree. -/
def treeContent (tree : OutTree) (p : String) : String :=
  catList (pathFragments tree p)

/-- The spec's build-root placeholder token rewritten by the translator. -/
def rpmBuildRoot : String := "$RPM_BUILD_ROOT"

/-- The destination-directory variable token of the target build system. -/
def destDirVar : String := "${DESTDIR}"

/- ===================== rules translator: phases ===================== -/

/-- Fixed preamble stanza (`debianrules.py` lines 32-51). -/
def preambleText : String :=
  "#!/usr/bin/make -f\n\n#include /usr/share/cdbs/1/rules/debhelper.mk\n#include /usr/share/cdbs/1/class/makefile.mk\n#include /usr/share/cdbs/1/rules/ocaml.mk\n\nexport DH_VERBOSE=1\nexport DH_OPTIONS\nexport DESTDIR=$(CURDIR)/debian/tmp\n%:\n\tdh $@ --with ocaml --with python2\n\n"

/-- Translation of `ocaml_rules_preamble` (ignores the spec argument). -/
def ocaml_rules_preamble (_ : DebSpec) (tree : OutTree) : OutTree :=
  tree ++ [("debian/rules", preambleText, none)]

/-- Fixed no-op configure stanza (`debianrules.py` lines 54-70). -/
def configureText : String :=
  ".PHONY: override_dh_auto_configure\noverride_dh_auto_configure:\n\n"

/-- Translation of `rules_configure_from_spec` (ignores the spec argument). -/
def rules_configure_from_spec (_ : DebSpec) (tree : OutTree) : OutTree :=
  tree ++ [("debian/rules", configureText, none)]

/-- Build stanza of the primary rule file (`debianrules.py` lines 88-91). -/
def buildRuleText : String :=
  ".PHONY: override_dh_auto_build\noverride_dh_auto_build:\n\tdebian/build.sh\n\n"

/-- Content of the `debian/build.sh` helper (`debianrules.py` lines 93-95):
interpreter line, the CFLAGS-neutralising line, then the build recipe with the
build-root placeholder rewritten. -/
def buildHelperText (spec : DebSpec) : String :=
  "#!/bin/sh\nunset CFLAGS\n" ++ strReplace rpmBuildRoot destDirVar spec.build

/-- Translation of `rules_build_from_spec` (`debianrules.py` lines 73-98):
nothing is appended when the build recipe is empty. -/
def rules_build_from_spec (spec : DebSpec) (tree : OutTree) : OutTree :=
  if spec.build = "" then tree
  else
    tree ++ [("debian/rules", buildRuleText, none),
             ("debian/build.sh", buildHelperText spec, some 0o755)]

/-- Install stanza of the primary rule file (`debianrules.py` lines 106-109). -/
def installRuleText : String :=
  ".PHONY: override_dh_auto_install\noverride_dh_auto_install:\n\tdebian/install.sh\n\n"

/-- Content of the `debian/install.sh` helper (`debianrules.py` lines
111-112). -/
def installHelperText (spec : DebSpec) : String :=
  "#!/bin/sh\n" ++ strReplace rpmBuildRoot destDirVar spec.install

/-- Translation of `rules_install_from_spec` (`debianrules.py` lines
101-115). -/
def rules_install_from_spec (spec : DebSpec) (tree : OutTree) : OutTree :=
  tree ++ [("debian/rules", installRuleText, none),
           ("debian/install.sh", installHelperText spec, some 0o755)]

/-- Dh-install stanza (`debianrules.py` lines 118-134).  The externally
supplied collaborators are passed as arguments: `pkgname` models
`mappkgname.map_package_name(spec.sourceHeader)`, `excl` the exclusion-pattern
lookup (`rpmextra.files_from_spec`, `none` when the `-%exclude` key is
absent), `expand` the macro expansion `rpm.expandMacro`, and `np` the path
normalisation `os.path.normpath`. -/
def dhInstallRuleText (pkgname : String) (excl : Option (List String))
    (expand np : String → String) : String :=
  ".PHONY: override_dh_install\noverride_dh_install:\n\tdh_install\n"
    ++ (match excl with
        | some pats =>
          catList (pats.map fun pat =>
            np ("\trm -f debian/" ++ pkgname ++ "/" ++ expand pat ++ "\n"))
        | none => "")
    ++ "\n"

/-- Translation of `rules_dh_install_from_spec` (`debianrules.py` lines
118-134). -/
def rules_dh_install_from_spec (pkgname : String) (excl : Option (List String))
    (expand np : String → String) (tree : OutTree) : OutTree :=
  tree ++ [("debian/rules", dhInstallRuleText pkgname excl expand np, none)]

/-- Python's `c.isspace()` set used by `str.strip()`. -/
def pyIsSpace (c : Char) : Bool :=
  c = ' ' || c = '\t' || c = '\n' || c = '\r' || c = '\x0b' || c = '\x0c'

/-- Python's `s.strip()`: remove leading and trailing whitespace. -/
def pyStrip (s : String) : String :=
  ⟨((s.data.dropWhile pyIsSpace).reverse.dropWhile pyIsSpace).reverse⟩

/-- Body of `re.sub("^", "\t", s, flags=re.MULTILINE)` for a string with no
trailing newline: a tab at the start and after every newline. -/
def indentChars : List Char → List Char
  | [] => []
  | c :: rest =>
    if c = '\n' then '\n' :: '\t' :: indentChars rest
    else c :: indentChars rest

/-- The multi-line indentation applied to the inlined clean recipe. -/
def indentML (s : String) : String :=
  ⟨'\t' :: indentChars s.data⟩

/-- Clean stanza of the primary rule file (`debianrules.py` lines 141-145):
invokes the helper script and also inlines the stripped clean recipe, each
line indented, with no placeholder substitution. -/
def cleanRuleText (spec : DebSpec) : String :=
  ".PHONY: override_dh_auto_clean\noverride_dh_auto_clean:\n\tdebian/clean.sh\n"
    ++ indentML (pyStrip spec.clean) ++ "\n\n"

/-- Content of the `debian/clean.sh` helper (`debianrules.py` lines 147-148):
the clean recipe with the build-root placeholder rewritten. -/
def cleanHelperText (spec : DebSpec) : String :=
  "#!/bin/sh\n" ++ strReplace rpmBuildRoot destDirVar spec.clean

/-- Translation of `rules_clean_from_spec` (`debianrules.py` lines
137-151). -/
def rules_clean_from_spec (spec : DebSpec) (tree : OutTree) : OutTree :=
  tree ++ [("debian/rules", cleanRuleText spec, none),
           ("debian/clean.sh", cleanHelperText spec, some 0o755)]

/-- Fixed empty test stanza (`debianrules.py` lines 154-163). -/
def testRuleText : String :=
  ".PHONY: override_dh_auto_test\noverride_dh_auto_test:\n"

/-- Translation of `rules_test_from_spec` (ignores the spec argument). -/
def rules_test_from_spec (_ : DebSpec) (tree : OutTree) : OutTree :=
  tree ++ [("debian/rules", testRuleText, none)]

/-- Fixed setuptools configuration fragment (`debianrules.py` lines
166-174). -/
def setupCfgText : String :=
  "[install]\ninstall-layout=deb\n"

/-- Translation of `python_setuptools_cfg` (ignores the spec argument). -/
def python_setuptools_cfg (_ : DebSpec) (tree : OutTree) : OutTree :=
  tree ++ [("setup.cfg", setupCfgText, none)]

/-- Translation of `rules_from_spec` (`debianrules.py` lines 16-29): the
phases populate an initially empty tree in the fixed call order. -/
def rules_from_spec (spec : DebSpec) (pkgname : String)
    (excl : Option (List String)) (expand np : String → String) : OutTree :=
  python_setuptools_cfg spec
    (rules_test_from_spec spec
      (rules_clean_from_spec spec
        (rules_dh_install_from_spec pkgname excl expand np
          (rules_install_from_spec spec
            (rules_build_from_spec spec
              (rules_configure_from_spec spec
                (ocaml_rules_preamble spec [])))))))

/- ===================== string and tree lemmas ===================== -/

theorem strDataAppend (s t : String) : (s ++ t).data = s.data ++ t.data := rfl

theorem strEmptyAppend (s : String) : "" ++ s = s := by
  cases s with
  | mk d => rfl

theorem strAppendNil (s : String) : s ++ "" = s := by
  cases s with
  | mk d => exact congrArg String.mk (List.append_nil d)

theorem strAppendAssoc (a b c : String) : a ++ b ++ c = a ++ (b ++ c) := by
  cases a with
  | mk x =>
    cases b with
    | mk y =>
      cases c with
      | mk z => exact congrArg String.mk (List.append_assoc x y z)

theorem fragments_rules (spec : DebSpec) (pkgname : String)
    (excl : Option (List String)) (expand np : String → String) :
    pathFragments (rules_from_spec spec pkgname excl expand np) "debian/rules"
      = [preambleText, configureText]
        ++ (if spec.build = "" then [] else [buildRuleText])
        ++ [installRuleText, dhInstallRuleText pkgname excl expand np,
            cleanRuleText spec, testRuleText] := by
  by_cases h : spec.build = "" <;>
    simp [rules_from_spec, ocaml_rules_preamble, rules_configure_from_spec,
      rules_build_from_spec, rules_install_from_spec, rules_dh_install_from_spec,
      rules_clean_from_spec, rules_test_from_spec, python_setuptools_cfg,
      pathFragments, h]

theorem fragments_build_sh (spec : DebSpec) (pkgname : String)
    (excl : Option (List String)) (expand np : String → String) :
    pathFragments (rules_from_spec spec pkgname excl expand np) "debian/build.sh"
      = if spec.build = "" then [] else [buildHelperText spec] := by
  by_cases h : spec.build = "" <;>
    simp [rules_from_spec, ocaml_rules_preamble, rules_configure_from_spec,
      rules_build_from_spec, rules_install_from_spec, rules_dh_install_from_spec,
      rules_clean_from_spec, rules_test_from_spec, python_setuptools_cfg,
      pathFragments, h]

theorem fragments_install_sh (spec : DebSpec) (pkgname : String)
    (excl : Option (List String)) (expand np : String → String) :
    pathFragments (rules_from_spec spec pkgname excl expand np) "debian/install.sh"
      = [installHelperText spec] := by
  by_cases h : spec.build = "" <;>
    simp [rules_from_spec, ocaml_rules_preamble, rules_configure_from_spec,
      rules_build_from_spec, rules_install_from_spec, rules_dh_install_from_spec,
      rules_clean_from_spec, rules_test_from_spec, python_setuptools_cfg,
      pathFragments, h]

theorem fragments_clean_sh (spec : DebSpec) (pkgname : String)
    (excl : Option (List String)) (expand np : String → String) :
    pathFragments (rules_from_spec spec pkgname excl expand np) "debian/clean.sh"
      = [cleanHelperText spec] := by
  by_cases h : spec.build = "" <;>
    simp [rules_from_spec, ocaml_rules_preamble, rules_configure_from_spec,
      rules_build_from_spec, rules_install_from_spec, rules_dh_install_from_spec,
      rules_clean_from_spec, rules_test_from_spec, python_setuptools_cfg,
      pathFragments, h]

theorem fragments_setup_cfg (spec : DebSpec) (pkgname : String)
    (excl : Option (List String)) (expand np : String → String) :
    pathFragments (rules_from_spec spec pkgname excl expand np) "setup.cfg"
      = [setupCfgText] := by
  by_cases h : spec.build = "" <;>
    simp [rules_from_spec, ocaml_rules_preamble, rules_configure_from_spec,
      rules_build_from_spec, rules_install_from_spec, rules_dh_install_from_spec,
      rules_clean_from_spec, rules_test_from_spec, python_setuptools_cfg,
      pathFragments, h]

theorem leadsWith_mono : ∀ (p a b : List Char), leadsWith p a = true →
    leadsWith p (a ++ b) = true := by
  intro p
  induction p with
  | nil =>
    intro a b _
    rfl
  | cons x xs ih =>
    intro a b h
    cases a with
    | nil => simp [leadsWith] at h
    | cons y ys =>
      simp [leadsWith] at h ⊢
      exact ⟨h.1, ih ys b h.2⟩

theorem leadsWith_unique : ∀ (p1 p2 s : List Char), leadsWith p1 s = true →
    leadsWith p2 s = true → p1.length = p2.length → p1 = p2 := by
  intro p1
  induction p1 with
  | nil =>
    intro p2 s _ _ hlen
    cases p2 with
    | nil => rfl
    | cons b bs => simp at hlen
  | cons a as ih =>
    intro p2 s h1 h2 hlen
    cases p2 with
    | nil => simp at hlen
    | cons b bs =>
      cases s with
      | nil => simp [leadsWith] at h1
      | cons c cs =>
        simp [leadsWith] at h1 h2
        simp at hlen
        rw [h1.1, h2.1, ih bs cs h1.2 h2.2 hlen]

theorem ne_of_leadsWith_ne (p1 p2 : List Char) (s1 s2 : String)
    (h1 : leadsWith p1 s1.data = true) (h2 : leadsWith p2 s2.data = true)
    (hlen : p1.length = p2.length) (hne : p1 ≠ p2) : s1 ≠ s2 := by
  intro he
  subst he
  exact hne (leadsWith_unique p1 p2 s1.data h1 h2 hlen)

theorem buildRule_ne_dhInstall (pkgname : String) (excl : Option (List String))
    (expand np : String → String) :
    buildRuleText ≠ dhInstallRuleText pkgname excl expand np := by
  refine ne_of_leadsWith_ne ".PHONY: override_dh_a".data ".PHONY: override_dh_i".data
    buildRuleText (dhInstallRuleText pkgname excl expand np)
    (by decide) ?_ (by decide) (by decide)
  unfold dhInstallRuleText
  rw [strDataAppend, strDataAppend, List.append_assoc]
  apply leadsWith_mono
  decide

theorem buildRule_ne_cleanRule (spec : DebSpec) :
    buildRuleText ≠ cleanRuleText spec := by
  refine ne_of_leadsWith_ne ".PHONY: override_dh_auto_b".data
    ".PHONY: override_dh_auto_c".data buildRuleText (cleanRuleText spec)
    (by decide) ?_ (by decide) (by decide)
  unfold cleanRuleText
  rw [strDataAppend, strDataAppend, List.append_assoc]
  apply leadsWith_mono
  decide

/- ===================== claim theorems: rules translator ===================== -/

/-- C6: the rule translator emits the Build stanza and the `debian/build.sh`
helper exactly when the build recipe is non-empty, while the Preamble,
Configure, Install, Dh-Install, Clean, Test and Setup-Config contributions are
always emitted, whatever the recipes hold. -/
theorem rules_build_phase_iff (spec : DebSpec) (pkgname : String)
    (excl : Option (List String)) (expand np : String → String) :
    (buildRuleText ∈ pathFragments
        (rules_from_spec spec pkgname excl expand np) "debian/rules"
      ↔ spec.build ≠ "")
    ∧ (buildHelperText spec ∈ pathFragments
        (rules_from_spec spec pkgname excl expand np) "debian/build.sh"
      ↔ spec.build ≠ "")
    ∧ preambleText ∈ pathFragments
        (rules_from_spec spec pkgname excl expand np) "debian/rules"
    ∧ configureText ∈ pathFragments
        (rules_from_spec spec pkgname excl expand np) "debian/rules"
    ∧ installRuleText ∈ pathFragments
        (rules_from_spec spec pkgname excl expand np) "debian/rules"
    ∧ dhInstallRuleText pkgname excl expand np ∈ pathFragments
        (rules_from_spec spec pkgname excl expand np) "debian/rules"
    ∧ cleanRuleText spec ∈ pathFragments
        (rules_from_spec spec pkgname excl expand np) "debian/rules"
    ∧ testRuleText ∈ pathFragments
        (rules_from_spec spec pkgname excl expand np) "debian/rules"
    ∧ installHelperText spec ∈ pathFragments
        (rules_from_spec spec pkgname excl expand np) "debian/install.sh"
    ∧ cleanHelperText spec ∈ pathFragments
        (rules_from_spec spec pkgname excl expand np) "debian/clean.sh"
    ∧ setupCfgText ∈ pathFragments
        (rules_from_spec spec pkgname excl expand np) "setup.cfg" := by
  simp only [fragments_rules, fragments_build_sh, fragments_install_sh,
    fragments_clean_sh, fragments_setup_cfg]
  refine ⟨⟨fun hmem => ?_, fun hne => by simp [if_neg hne]⟩,
    ⟨fun hmem => ?_, fun hne => by simp [if_neg hne]⟩, ?_, ?_, ?_, ?_, ?_, ?_,
    by simp, by simp, by simp⟩
  · intro hb
    rw [hb] at hmem
    simp at hmem
    rcases hmem with h1 | h1 | h1 | h1 | h1 | h1
    · exact absurd h1 (by decide)
    · exact absurd h1 (by decide)
    · exact absurd h1 (by decide)
    · exact buildRule_ne_dhInstall pkgname excl expand np h1
    · exact buildRule_ne_cleanRule spec h1
    · exact absurd h1 (by decide)
  · intro hb
    rw [hb] at hmem
    simp at hmem
  · by_cases h : spec.build = "" <;> simp [h]
  · by_cases h : spec.build = "" <;> simp [h]
  · by_cases h : spec.build = "" <;> simp [h]
  · by_cases h : spec.build = "" <;> simp [h]
  · by_cases h : spec.build = "" <;> simp [h]
  · by_cases h : spec.build = "" <;> simp [h]

/-- C8: the primary rule file is the concatenation, in exactly this order and
with no implicit separator, of the Preamble, Configure, Build (only when the
build recipe is non-empty), Install, Dh-Install, Clean and Test fragments. -/
theorem rules_file_is_ordered_concatenation (spec : DebSpec) (pkgname : String)
    (excl : Option (List String)) (expand np : String → String) :
    treeContent (rules_from_spec spec pkgname excl expand np) "debian/rules"
      = preambleText ++ configureText
        ++ (if spec.build = "" then "" else buildRuleText)
        ++ installRuleText ++ dhInstallRuleText pkgname excl expand np
        ++ cleanRuleText spec ++ testRuleText := by
  simp only [treeContent, fragments_rules]
  by_cases h : spec.build = ""
  · simp [h, catList, strEmptyAppend, strAppendAssoc]
  · simp [h, catList, strAppendAssoc]

/- ===================== replaceAll lemmas ===================== -/

theorem leadsWith_refl : ∀ p : List Char, leadsWith p p = true := by
  intro p
  induction p with
  | nil => rfl
  | cons a as ih => simp [leadsWith, ih]

theorem replaceAll_leading (pat repl t : List Char) (hne : pat ≠ []) :
    replaceAll pat repl (pat ++ t) = repl ++ replaceAll pat repl t := by
  cases pat with
  | nil => exact absurd rfl hne
  | cons p ps =>
    have hlw : leadsWith (p :: ps) ((p :: ps) ++ t) = true :=
      leadsWith_mono (p :: ps) (p :: ps) t (leadsWith_refl _)
    rw [List.cons_append] at hlw ⊢
    rw [replaceAll, dif_pos ⟨hne, hlw⟩]
    have hd : (p :: (ps ++ t)).drop (p :: ps).length = t := by
      simp [List.drop_succ_cons, List.drop_left]
    rw [hd]

theorem replaceAll_skip (pat repl : List Char) : ∀ (a t : List Char),
    (∀ i, i < a.length → leadsWith pat ((a ++ t).drop i) = false) →
    replaceAll pat repl (a ++ t) = a ++ replaceAll pat repl t := by
  intro a
  induction a with
  | nil =>
    intro t _
    rfl
  | cons ch as ih =>
    intro t h
    have h0 : leadsWith pat (ch :: (as ++ t)) = false := by
      have h' := h 0 (by simp)
      simpa using h'
    have hnc : ¬(pat ≠ [] ∧ leadsWith pat (ch :: (as ++ t)) = true) := by
      intro hc
      rw [hc.2] at h0
      cases h0
    rw [List.cons_append, replaceAll, dif_neg hnc, List.cons_append]
    congr 1
    apply ih
    intro i hi
    have h' := h (i + 1) (by simp [List.length_cons]; omega)
    simpa [List.drop_succ_cons] using h'

theorem replaceAll_no_occ (pat repl : List Char) : ∀ s : List Char,
    (∀ i, i < s.length → leadsWith pat (s.drop i) = false) →
    replaceAll pat repl s = s := by
  intro s
  induction s with
  | nil =>
    intro _
    rw [replaceAll]
  | cons ch rest ih =>
    intro h
    have h0 : leadsWith pat (ch :: rest) = false := by
      have h' := h 0 (by simp)
      simpa using h'
    have hnc : ¬(pat ≠ [] ∧ leadsWith pat (ch :: rest) = true) := by
      intro hc
      rw [hc.2] at h0
      cases h0
    rw [replaceAll, dif_neg hnc]
    congr 1
    apply ih
    intro i hi
    have h' := h (i + 1) (by simp [List.length_cons]; omega)
    simpa [List.drop_succ_cons] using h'

theorem replaceAll_two_occurrences (pat repl a b c : List Char) (hne : pat ≠ [])
    (h1 : ∀ i, i < a.length →
        leadsWith pat ((a ++ (pat ++ (b ++ (pat ++ c)))).drop i) = false)
    (h2 : ∀ i, i < b.length → leadsWith pat ((b ++ (pat ++ c)).drop i) = false)
    (h3 : ∀ i, i < c.length → leadsWith pat (c.drop i) = false) :
    replaceAll pat repl (a ++ (pat ++ (b ++ (pat ++ c))))
      = a ++ (repl ++ (b ++ (repl ++ c))) := by
  rw [replaceAll_skip pat repl a _ h1]
  rw [replaceAll_leading pat repl _ hne]
  rw [replaceAll_skip pat repl b _ h2]
  rw [replaceAll_leading pat repl _ hne]
  rw [replaceAll_no_occ pat repl c h3]

/-- C7: in Build, Install and Clean, the helper-script content is an
interpreter/header prefix followed by the recipe with every occurrence of the
build-root placeholder replaced by the destination-directory variable; and the
replacement function rewrites a text holding the token at two non-overlapping
positions at both of them, altering nothing else. -/
theorem helper_scripts_placeholder_rewrite (spec : DebSpec) (pkgname : String)
    (excl : Option (List String)) (expand np : String → String) (a b c : List Char) :
    treeContent (rules_from_spec spec pkgname excl expand np) "debian/install.sh"
        = "#!/bin/sh\n" ++ strReplace rpmBuildRoot destDirVar spec.install
    ∧ treeContent (rules_from_spec spec pkgname excl expand np) "debian/clean.sh"
        = "#!/bin/sh\n" ++ strReplace rpmBuildRoot destDirVar spec.clean
    ∧ (spec.build ≠ "" →
        treeContent (rules_from_spec spec pkgname excl expand np) "debian/build.sh"
          = "#!/bin/sh\nunset CFLAGS\n" ++ strReplace rpmBuildRoot destDirVar spec.build)
    ∧ ((∀ i, i < a.length → leadsWith rpmBuildRoot.data
          ((a ++ (rpmBuildRoot.data ++ (b ++ (rpmBuildRoot.data ++ c)))).drop i) = false) →
       (∀ i, i < b.length → leadsWith rpmBuildRoot.data
          ((b ++ (rpmBuildRoot.data ++ c)).drop i) = false) →
       (∀ i, i < c.length → leadsWith rpmBuildRoot.data (c.drop i) = false) →
       replaceAll rpmBuildRoot.data destDirVar.data
           (a ++ (rpmBuildRoot.data ++ (b ++ (rpmBuildRoot.data ++ c))))
         = a ++ (destDirVar.data ++ (b ++ (destDirVar.data ++ c)))) := by
  refine ⟨?_, ?_, fun hb => ?_, fun h1 h2 h3 =>
    replaceAll_two_occurrences _ _ a b c (by decide) h1 h2 h3⟩
  · simp [treeContent, fragments_install_sh, catList, installHelperText]
  · simp [treeContent, fragments_clean_sh, catList, cleanHelperText]
  · simp [treeContent, fragments_build_sh, if_neg hb, catList, buildHelperText]

/-- C7 witness: a concrete spec whose three recipes hold the placeholder, and
a concrete recipe text with the token at exactly two positions, rewritten at
both. -/
theorem helper_scripts_placeholder_rewrite_witness :
    treeContent (rules_from_spec
        ⟨"make $RPM_BUILD_ROOT", "install $RPM_BUILD_ROOT", "clean $RPM_BUILD_ROOT"⟩
        "pkg" none (fun s => s) (fun s => s)) "debian/install.sh"
        = "#!/bin/sh\n" ++ strReplace rpmBuildRoot destDirVar "install $RPM_BUILD_ROOT"
    ∧ treeContent (rules_from_spec
        ⟨"make $RPM_BUILD_ROOT", "install $RPM_BUILD_ROOT", "clean $RPM_BUILD_ROOT"⟩
        "pkg" none (fun s => s) (fun s => s)) "debian/clean.sh"
        = "#!/bin/sh\n" ++ strReplace rpmBuildRoot destDirVar "clean $RPM_BUILD_ROOT"
    ∧ treeContent (rules_from_spec
        ⟨"make $RPM_BUILD_ROOT", "install $RPM_BUILD_ROOT", "clean $RPM_BUILD_ROOT"⟩
        "pkg" none (fun s => s) (fun s => s)) "debian/build.sh"
        = "#!/bin/sh\nunset CFLAGS\n" ++ strReplace rpmBuildRoot destDirVar "make $RPM_BUILD_ROOT"
    ∧ replaceAll rpmBuildRoot.data destDirVar.data
        ("cp x ".data ++ (rpmBuildRoot.data ++ ("/f; cp y ".data
          ++ (rpmBuildRoot.data ++ "/g\n".data))))
      = "cp x ".data ++ (destDirVar.data ++ ("/f; cp y ".data
          ++ (destDirVar.data ++ "/g\n".data))) := by
  have h := helper_scripts_placeholder_rewrite
    ⟨"make $RPM_BUILD_ROOT", "install $RPM_BUILD_ROOT", "clean $RPM_BUILD_ROOT"⟩
    "pkg" none (fun s => s) (fun s => s)
    "cp x ".data "/f; cp y ".data "/g\n".data
  exact ⟨h.1, h.2.1, h.2.2.1 (by decide),
    h.2.2.2 (by decide) (by decide) (by decide)⟩

/- ===================== replacement-length lemmas ===================== -/

theorem leadsWith_length_le : ∀ (p s : List Char), leadsWith p s = true →
    p.length ≤ s.length := by
  intro p
  induction p with
  | nil =>
    intro s _
    simp
  | cons a as ih =>
    intro s h
    cases s with
    | nil => simp [leadsWith] at h
    | cons b bs =>
      simp [leadsWith] at h
      have := ih bs h.2
      simp [List.length_cons]
      omega

theorem replaceAll_length_le (pat repl : List Char) (hle : repl.length ≤ pat.length) :
    ∀ n, ∀ s : List Char, s.length ≤ n →
      (replaceAll pat repl s).length ≤ s.length := by
  intro n
  induction n with
  | zero =>
    intro s hs
    have hnil : s = [] := List.eq_nil_of_length_eq_zero (Nat.le_zero.mp hs)
    subst hnil
    rw [replaceAll]
  | succ n ih =>
    intro s hs
    cases s with
    | nil => rw [replaceAll]
    | cons ch rest =>
      rw [replaceAll]
      by_cases hc : pat ≠ [] ∧ leadsWith pat (ch :: rest) = true
      · rw [dif_pos hc]
        have hplen : 0 < pat.length := List.length_pos.mpr hc.1
        have hple : pat.length ≤ (ch :: rest).length := leadsWith_length_le pat _ hc.2
        have hdl : ((ch :: rest).drop pat.length).length
            = (ch :: rest).length - pat.length := List.length_drop _ _
        have hdn : ((ch :: rest).drop pat.length).length ≤ n := by
          rw [List.length_drop]
          simp only [List.length_cons] at hs ⊢
          omega
        have hrec := ih _ hdn
        rw [List.length_append]
        omega
      · rw [dif_neg hc]
        have hrec := ih rest (by simp only [List.length_cons] at hs; omega)
        simp only [List.length_cons]
        omega

theorem occursB_exists (pat s : List Char) :
    occursB pat s = true ↔ ∃ i, i < s.length ∧ leadsWith pat (s.drop i) = true := by
  simp [occursB, List.any_eq_true, List.mem_range]

theorem replaceAll_length_lt (pat repl : List Char) (hlt : repl.length < pat.length) :
    ∀ n, ∀ s : List Char, s.length ≤ n → occursB pat s = true →
      (replaceAll pat repl s).length < s.length := by
  intro n
  induction n with
  | zero =>
    intro s hs hocc
    have hnil : s = [] := List.eq_nil_of_length_eq_zero (Nat.le_zero.mp hs)
    subst hnil
    simp [occursB] at hocc
  | succ n ih =>
    intro s hs hocc
    cases s with
    | nil => simp [occursB] at hocc
    | cons ch rest =>
      have hne : pat ≠ [] := by
        intro hp
        rw [hp] at hlt
        simp at hlt
      by_cases hc : leadsWith pat (ch :: rest) = true
      · rw [replaceAll, dif_pos ⟨hne, hc⟩]
        have hplen : 0 < pat.length := List.length_pos.mpr hne
        have hple : pat.length ≤ (ch :: rest).length := leadsWith_length_le pat _ hc
        have hdl : ((ch :: rest).drop pat.length).length
            = (ch :: rest).length - pat.length := List.length_drop _ _
        have hrec := replaceAll_length_le pat repl (le_of_lt hlt)
          ((ch :: rest).drop pat.length).length ((ch :: rest).drop pat.length) le_rfl
        rw [List.length_append]
        omega
      · obtain ⟨i, hi, hl⟩ := (occursB_exists pat (ch :: rest)).mp hocc
        have hipos : i ≠ 0 := by
          intro h0
          rw [h0, List.drop_zero] at hl
          exact hc hl
        have hocc2 : occursB pat rest = true := by
          apply (occursB_exists pat rest).mpr
          refine ⟨i - 1, ?_, ?_⟩
          · simp only [List.length_cons] at hi
            omega
          · have hd : (ch :: rest).drop i = rest.drop (i - 1) := by
              cases i with
              | zero => exact absurd rfl hipos
              | succ j => simp [List.drop_succ_cons]
            rw [← hd]
            exact hl
        have hrec := ih rest (by simp only [List.length_cons] at hs; omega) hocc2
        have hnc : ¬(pat ≠ [] ∧ leadsWith pat (ch :: rest) = true) := fun hx => hc hx.2
        rw [replaceAll, dif_neg hnc]
        simp only [List.length_cons]
        omega

theorem strReplace_ne_of_occurs (s : String)
    (hocc : occursB rpmBuildRoot.data s.data = true) :
    strReplace rpmBuildRoot destDirVar s ≠ s := by
  intro he
  have hlen := replaceAll_length_lt rpmBuildRoot.data destDirVar.data (by decide)
    s.data.length s.data le_rfl hocc
  have hdata : replaceAll rpmBuildRoot.data destDirVar.data s.data = s.data :=
    congrArg String.data he
  rw [hdata] at hlen
  exact absurd hlen (lt_irrefl _)

/-- C10: the clean stanza inlined into the primary rule file carries the
stripped clean recipe with the build-root placeholder left untouched, while
the clean helper script carries the recipe with the placeholder substituted;
whenever the recipe mentions the placeholder the substituted text differs
from the raw recipe. -/
theorem clean_recipe_inline_unsubstituted (spec : DebSpec) (pkgname : String)
    (excl : Option (List String)) (expand np : String → String) :
    treeContent (rules_from_spec spec pkgname excl expand np) "debian/rules"
      = (preambleText ++ configureText
          ++ (if spec.build = "" then "" else buildRuleText)
          ++ installRuleText ++ dhInstallRuleText pkgname excl expand np)
        ++ (".PHONY: override_dh_auto_clean\noverride_dh_auto_clean:\n\tdebian/clean.sh\n"
            ++ indentML (pyStrip spec.clean) ++ "\n\n")
        ++ testRuleText
    ∧ treeContent (rules_from_spec spec pkgname excl expand np) "debian/clean.sh"
        = "#!/bin/sh\n" ++ strReplace rpmBuildRoot destDirVar spec.clean
    ∧ (occursB rpmBuildRoot.data spec.clean.data = true →
        strReplace rpmBuildRoot destDirVar spec.clean ≠ spec.clean) := by
  refine ⟨?_, ?_, fun hocc => strReplace_ne_of_occurs spec.clean hocc⟩
  · simp only [treeContent, fragments_rules]
    by_cases h : spec.build = ""
    · simp [h, catList, cleanRuleText, strEmptyAppend, strAppendAssoc]
    · simp [h, catList, cleanRuleText, strAppendAssoc]
  · simp [treeContent, fragments_clean_sh, catList, cleanHelperText]

/-- C10 witness: for a concrete clean recipe that mentions the placeholder,
the helper gets the substituted text, and the substituted text differs from
the raw recipe. -/
theorem clean_recipe_inline_unsubstituted_witness :
    treeContent (rules_from_spec ⟨"b", "i", "rm -rf $RPM_BUILD_ROOT"⟩ "p" none
        (fun s => s) (fun s => s)) "debian/clean.sh"
      = "#!/bin/sh\n" ++ strReplace rpmBuildRoot destDirVar "rm -rf $RPM_BUILD_ROOT"
    ∧ strReplace rpmBuildRoot destDirVar "rm -rf $RPM_BUILD_ROOT"
        ≠ "rm -rf $RPM_BUILD_ROOT" := by
  have h := clean_recipe_inline_unsubstituted ⟨"b", "i", "rm -rf $RPM_BUILD_ROOT"⟩
    "p" none (fun s => s) (fun s => s)
  exact ⟨h.2.1, h.2.2 (by decide)⟩
